import Mathlib

/-
Verification development for build_calendar-old.py: a shallow embedding of the
heuristic event-extraction pipeline (listing-page identifier extraction,
event-page parsing, record filtering, and calendar-event construction),
together with theorems checking the documented behaviour.

Conventions of the embedding:
  - Python datetimes become the structure DT below; a naive datetime has
    tzoffset = none, an aware one carries its UTC offset in minutes.
  - Machine text is List Char / String; the two regular expressions of the
    source are embedded as explicit scanners with the same leftmost,
    non-overlapping, greedy semantics (ASCII digits model the \d class).
  - Calls into external libraries (the dateutil parse functions, the pytz localize
    operation, the BeautifulSoup DOM queries) are modelled: the strict dateutil parse at the
    call sites of the source only ever receives strings produced by the ISO
    regular expression, so it is modelled as an ISO parser with field-range
    validation; the DOM is modelled as the structured Page value holding the
    pieces the source queries (meta tags, script texts, time elements, string
    nodes); a time zone is modelled by the offset (in minutes) it assigns to
    each wall-clock datetime.
-/

namespace BuildCalendar

/-- Model of a Python datetime value: wall-clock fields plus an optional
UTC offset in minutes (none = naive datetime, no tzinfo). -/
structure DT where
  year : Nat
  month : Nat
  day : Nat
  hour : Nat
  minute : Nat
  second : Nat
  tzoffset : Option Int
deriving DecidableEq, Repr

/-- ASCII digit recognizer for the regex \d class. -/
def getDigit (c : Char) : Option Nat :=
  if c.isDigit then some (c.toNat - 48) else none

/-- Consume exactly two digits. -/
def d2 : List Char → Option (Nat × List Char)
  | a :: b :: rest =>
    match getDigit a, getDigit b with
    | some x, some y => some (x * 10 + y, rest)
    | _, _ => none
  | _ => none

/-- Consume exactly four digits. -/
def d4 : List Char → Option (Nat × List Char)
  | a :: b :: c :: d :: rest =>
    match getDigit a, getDigit b, getDigit c, getDigit d with
    | some x, some y, some z, some w => some (((x * 10 + y) * 10 + z) * 10 + w, rest)
    | _, _, _, _ => none
  | _ => none

/-- Consume one expected literal character. -/
def lit (ch : Char) : List Char → Option (List Char)
  | c :: rest => if c = ch then some rest else none
  | [] => none

/-- Sign of a numeric offset marker character. -/
def offSign (c : Char) : Int := if c = '-' then -1 else 1

/-- Embedding of the optional offset group of the regex at line 65 of the
source, ([+-]dd:?dd|Z)?: greedy, and when the signed alternative fails part
way the whole group matches empty (the Z alternative cannot start with a
sign character). Returns the parsed offset in minutes and the rest of the
input (unchanged when the group matches empty). -/
def parseOffset : List Char → Option Int × List Char
  | [] => (none, [])
  | c :: rest =>
    if c = '+' ∨ c = '-' then
      match d2 rest with
      | none => (none, c :: rest)
      | some (hh, r1) =>
        match r1 with
        | ':' :: r2 =>
          match d2 r2 with
          | none => (none, c :: rest)
          | some (mm, r3) => (some (offSign c * (hh * 60 + mm)), r3)
        | _ =>
          match d2 r1 with
          | none => (none, c :: rest)
          | some (mm, r3) => (some (offSign c * (hh * 60 + mm)), r3)
    else if c = 'Z' then (some 0, rest)
    else (none, c :: rest)

/-- Embedding of one anchored match attempt of the ISO timestamp regex
dddd-dd-ddTdd:dd:dd([+-]dd:?dd|Z)? at the head of the input: on success
returns the captured datetime fields and the input remaining after the
match. -/
def parseIsoCore (l : List Char) : Option (DT × List Char) :=
  (d4 l).bind fun py =>
  (lit '-' py.2).bind fun r2 =>
  (d2 r2).bind fun pmo =>
  (lit '-' pmo.2).bind fun r4 =>
  (d2 r4).bind fun pda =>
  (lit 'T' pda.2).bind fun r6 =>
  (d2 r6).bind fun phh =>
  (lit ':' phh.2).bind fun r8 =>
  (d2 r8).bind fun pmi =>
  (lit ':' pmi.2).bind fun r10 =>
  (d2 r10).bind fun pss =>
  some (⟨py.1, pmo.1, pda.1, phh.1, pmi.1, pss.1, (parseOffset pss.2).1⟩,
        (parseOffset pss.2).2)

/-- Rest of the input after an anchored ISO-timestamp match, when one exists. -/
def isoMatchRest (l : List Char) : Option (List Char) :=
  (parseIsoCore l).map Prod.snd

/-- Gregorian leap-year test. -/
def isLeap (y : Nat) : Bool :=
  y % 4 == 0 && (y % 100 != 0 || y % 400 == 0)

/-- Length in days of month m of year y (months numbered from 1). -/
def monthLen (y m : Nat) : Nat :=
  if m == 2 then (if isLeap y then 29 else 28)
  else if m == 4 || m == 6 || m == 9 || m == 11 then 30
  else 31

/-- Field-range validation a Python datetime constructor performs; an
ISO string whose fields violate these ranges makes the external parse
raise, which the source treats as a failed candidate. -/
def validDT (dt : DT) : Bool :=
  decide (1 ≤ dt.year) && decide (1 ≤ dt.month) && decide (dt.month ≤ 12) &&
  decide (1 ≤ dt.day) && decide (dt.day ≤ monthLen dt.year dt.month) &&
  decide (dt.hour ≤ 23) && decide (dt.minute ≤ 59) && decide (dt.second ≤ 59) &&
  (match dt.tzoffset with
   | none => true
   | some o => decide (o.natAbs < 1440))

/-- Model of the external dateutil parse applied to a string captured by the
ISO timestamp regex (the only strings the strict-parse call site of the source
ever receives): the whole string must be one ISO match and its fields must
pass datetime validation. -/
def dp_parse (s : String) : Option DT :=
  match parseIsoCore s.data with
  | some (dt, []) => if validDT dt then some dt else none
  | _ => none

/-- Days in years strictly before year y (years numbered from 1). -/
def daysBeforeYear (y : Nat) : Nat :=
  (y - 1) * 365 + (y - 1) / 4 - (y - 1) / 100 + (y - 1) / 400

/-- Days in months of year y strictly before month m. -/
def daysBeforeMonth (y m : Nat) : Nat :=
  (List.range (m - 1)).foldl (fun a i => a + monthLen y (i + 1)) 0

/-- Seconds since the start of year 1 read off the wall-clock fields; on
validated datetimes this orders exactly like the Python field-lexicographic
naive-datetime comparison. -/
def naiveKey (dt : DT) : Int :=
  ((daysBeforeYear dt.year + daysBeforeMonth dt.year dt.month + (dt.day - 1)) * 86400
    + dt.hour * 3600 + dt.minute * 60 + dt.second : Nat)

/-- Instant of an aware datetime with offset o minutes: wall clock shifted
back by the offset, as Python compares aware datetimes by UTC instant. -/
def awareKey (dt : DT) (o : Int) : Int := naiveKey dt - o * 60

/-- Model of the Python datetime comparison a >= b: defined between two naive
or two aware values, an error (none) between a naive and an aware value,
which the try/except of the source turns into a skipped candidate. -/
def dtGE (a b : DT) : Option Bool :=
  match a.tzoffset, b.tzoffset with
  | none, none => some (decide (naiveKey b ≤ naiveKey a))
  | some oa, some ob => some (decide (awareKey b ob ≤ awareKey a oa))
  | _, _ => none

/-- Fuelled scanner realizing finditer for the ISO timestamp regex: try an
anchored match at each position; on success emit the matched substring and
resume after it, otherwise advance one character. The fuel is the input
length, which the remaining input never exceeds. -/
def isoScanF : Nat → List Char → List String
  | 0, _ => []
  | _ + 1, [] => []
  | fuel + 1, c :: cs =>
    match isoMatchRest (c :: cs) with
    | some r => String.mk ((c :: cs).take ((c :: cs).length - r.length)) :: isoScanF fuel r
    | none => isoScanF fuel cs

/-- All ISO-timestamp matches of a script text, in document order (the
strings handed to the external parse by lines 65-69 of the source). -/
def isoMatches (s : String) : List String := isoScanF s.data.length s.data

/-- Embedding of the generator unique (lines 22-27): yield each element
whose value has not appeared before, tracking seen values. -/
def uniqueGo (seen : List String) : List String → List String
  | [] => []
  | x :: xs => if x ∈ seen then uniqueGo seen xs else x :: uniqueGo (x :: seen) xs

/-- Stable duplicate removal, list(unique(seq)) of the source. -/
def unique (l : List String) : List String := uniqueGo [] l

/-- Literal path segment of the listing-page regex /events/(\d+). -/
def eventsPat : List Char := "/events/".data

/-- Maximal run of digits at the head of the input (greedy \d+), returned
together with the remaining input. -/
def takeDigits : List Char → List Char × List Char
  | [] => ([], [])
  | c :: cs =>
    if c.isDigit then
      let p := takeDigits cs
      (c :: p.1, p.2)
    else ([], c :: cs)

/-- Anchored match of an expected literal string: the remaining input when
the pattern is a prefix of the input. -/
def dropLiteral : List Char → List Char → Option (List Char)
  | [], l => some l
  | _ :: _, [] => none
  | p :: ps, c :: cs => if c = p then dropLiteral ps cs else none

/-- One anchored attempt of /events/(\d+): the captured digit group and the
input remaining after the whole match. -/
def eventIdAt (l : List Char) : Option (String × List Char) :=
  match dropLiteral eventsPat l with
  | none => none
  | some r =>
    match takeDigits r with
    | ([], _) => none
    | (ds, rest) => some (String.mk ds, rest)

/-- Fuelled finditer scanner for /events/(\d+), leftmost non-overlapping
matches in document order. -/
def idScanF : Nat → List Char → List String
  | 0, _ => []
  | _ + 1, [] => []
  | fuel + 1, c :: cs =>
    match eventIdAt (c :: cs) with
    | some (i, rest) => i :: idScanF fuel rest
    | none => idScanF fuel cs

/-- The ids list collected by the finditer loop of extract_event_ids
(lines 33-35), before deduplication. -/
def rawEventIds (html : String) : List String := idScanF html.data.length html.data

/-- Embedding of extract_event_ids (lines 29-36): collect every /events/ id
in document order, then apply the stable-unique filter. -/
def extract_event_ids (html : String) : List String := unique (rawEventIds html)

/-- Anchored match test: does the needle occur at the head of the haystack. -/
def headMatch : List Char → List Char → Bool
  | [], _ => true
  | _ :: _, [] => false
  | p :: ps, c :: cs => p == c && headMatch ps cs

/-- Substring containment, the Python in operator on strings (the empty
needle is contained in everything). -/
def hasSub (needle : List Char) : List Char → Bool
  | [] => needle.isEmpty
  | c :: cs => headMatch needle (c :: cs) || hasSub needle cs

/-- Lowercased character data of a string (Python str.lower, restricted to
the ASCII range the heuristic tokens live in). -/
def lowerData (s : String) : List Char := s.data.map Char.toLower

/-- The script-qualification test of line 62 of the source: the lowercased
script text contains "event" and also "start" or "end". -/
def scriptHasTokens (txt : String) : Bool :=
  hasSub "event".data (lowerData txt) &&
    (hasSub "start".data (lowerData txt) || hasSub "end".data (lowerData txt))

/-- One candidate step of the script timestamp scan (lines 67-75): parse the
captured ISO string; a parse or comparison error leaves the state unchanged;
the first parsed value becomes start; a later parsed value becomes end only
when no end is set and it compares >= start. -/
def scanCandidate (st : Option DT × Option DT) (iso : String) : Option DT × Option DT :=
  match dp_parse iso with
  | none => st
  | some dt =>
    match st with
    | (none, e) => (some dt, e)
    | (some s, none) => if dtGE dt s = some true then (some s, some dt) else (some s, none)
    | (some s, some e) => (some s, some e)

/-- Process one script block (lines 59-75): when the script text qualifies,
fold the candidate step over its ISO matches in document order. -/
def scanScript (st : Option DT × Option DT) (txt : String) : Option DT × Option DT :=
  if scriptHasTokens txt then (isoMatches txt).foldl scanCandidate st else st

/-- The whole embedded-script scan over the script blocks of the page, starting
from no resolved start or end. -/
def scriptScan (scripts : List String) : Option DT × Option DT :=
  scripts.foldl scanScript (none, none)

/-- Model of a time-bearing DOM element found by soup.find_all on time and
abbr tags: its datetime attribute (none when absent) and its visible text
as returned by get_text with separator and strip. -/
structure TimeEl where
  datetimeAttr : Option String
  text : String
deriving DecidableEq, Repr

/-- Model of the external dateutil parse invoked with fuzzy parsing by the
DOM fallback (line 83): lenient scanning that succeeds on the first
recognizable ISO-shaped timestamp inside the text and fails when the text
holds none. -/
def dp_parse_fuzzy (s : String) : Option DT :=
  match isoMatches s with
  | [] => none
  | t :: _ => dp_parse t

/-- The string the source hands to the fuzzy parse for one element:
p.get("datetime") or p.get_text(...) — the datetime attribute when present
and non-empty (Python falsiness of the empty string), otherwise the text. -/
def timeElArg (el : TimeEl) : String :=
  match el.datetimeAttr with
  | some a => if a = "" then el.text else a
  | none => el.text

/-- Embedding of the DOM time-element fallback loop (lines 78-86): for each
element in document order parse its chosen string; the first success becomes
start and the loop breaks; a failure skips the whole element. -/
def timeFallback : List TimeEl → Option DT
  | [] => none
  | el :: rest =>
    match dp_parse_fuzzy (timeElArg el) with
    | some dt => some dt
    | none => timeFallback rest

/-- Word-constituent test of the regex \b boundary (\w = alphanumeric or
underscore). -/
def isWordChar (c : Char) : Bool := c.isAlphanum || c == '_'

/-- Does a word-boundary-delimited occurrence of the (lowercased) label
start at the head of l, given the character just before l (none at the
start of the text)? -/
def wordAtHead (lbl : List Char) (prev : Option Char) (l : List Char) : Bool :=
  headMatch lbl l &&
    (match prev with
     | none => true
     | some c => !isWordChar c) &&
    (match (l.drop lbl.length).head? with
     | none => true
     | some c => !isWordChar c)

/-- Search for a whole-word occurrence of the label anywhere in the text,
tracking the previous character for the left boundary. -/
def hasWordFrom (lbl : List Char) (prev : Option Char) : List Char → Bool
  | [] => wordAtHead lbl prev []
  | c :: cs => wordAtHead lbl prev (c :: cs) || hasWordFrom lbl (some c) cs

/-- Case-insensitive whole-word containment, the compiled pattern
\b<label>\b with the IGNORECASE flag of line 91. -/
def hasWord (lbl : String) (s : String) : Bool :=
  hasWordFrom (lowerData lbl) none (lowerData s)

/-- Model of one DOM string node inspected by the location heuristic: its
own text, and the stripped text of el.parent.find_next() (none when no
following node exists). -/
structure TextNode where
  str : String
  nextText : Option String
deriving DecidableEq, Repr

/-- The fixed label priority list of line 89. -/
def locLabels : List String := ["Location", "Place", "Venue", "Where"]

/-- Embedding of the location heuristic loop (lines 89-97): for each label
in priority order find the first string node containing it as a whole word;
when that node has a following node, its text is assigned to location, and
the loop breaks only when that text is non-empty (Python truthiness). The
Bool component of the fold state records the break. -/
def locScan (nodes : List TextNode) : Option String :=
  (locLabels.foldl
    (fun acc lbl =>
      if acc.2 then acc
      else
        match nodes.find? (fun n => hasWord lbl n.str) with
        | none => acc
        | some n =>
          match n.nextText with
          | none => acc
          | some t => (some t, decide (t ≠ "")))
    (none, false)).1

/-- Model of one meta tag: its property attribute and its content attribute
(none when the content attribute is absent). -/
structure MetaTag where
  prop : String
  content : Option String
deriving DecidableEq, Repr

/-- Embedding of try_og_meta (lines 41-43): the content of the first meta
tag whose property matches, none when no tag matches or the matching tag
has no content attribute. -/
def try_og_meta (metas : List MetaTag) (prop : String) : Option String :=
  match metas.find? (fun t => t.prop == prop) with
  | some t => t.content
  | none => none

/-- Model of a parsed event page: the parts of the DOM the source queries.
metas are the meta tags in document order, scripts the script-block texts,
timeEls the time and abbr elements, textNodes the string nodes searched by
the location heuristic. -/
structure Page where
  metas : List MetaTag
  scripts : List String
  timeEls : List TimeEl
  textNodes : List TextNode
deriving DecidableEq, Repr

/-- Python x or default on an optional string: the default replaces both an
absent and an empty (falsy) value. -/
def pyOrStr (o : Option String) (dflt : String) : String :=
  match o with
  | some s => if s = "" then dflt else s
  | none => dflt

/-- Python truthiness projection of an optional string: none for an absent
or empty value, the string itself otherwise. -/
def pyStr (o : Option String) : Option String :=
  match o with
  | some s => if s = "" then none else some s
  | none => none

/-- Result record of parse_event_page (lines 99-106); end_dt embeds the
dictionary key "end". -/
structure EventRecord where
  title : String
  description : String
  url : Option String
  start : Option DT
  end_dt : Option DT
  location : Option String
deriving DecidableEq, Repr

/-- Start value after the DOM fallback (lines 77-86): the fallback runs only
when the script scan resolved no start. -/
def startResolve (s : Option DT) (els : List TimeEl) : Option DT :=
  match s with
  | some d => some d
  | none => timeFallback els

/-- Embedding of parse_event_page (lines 45-106): Open Graph metadata for
title, description and url (title and description with Python or-defaults),
the embedded-script timestamp scan for start and end, the DOM time-element
fallback for a still-unresolved start, and the label-priority location
heuristic. -/
def parse_event_page (pg : Page) : EventRecord :=
  { title := pyOrStr (try_og_meta pg.metas "og:title") "Untitled Event"
  , description := pyOrStr (try_og_meta pg.metas "og:description") ""
  , url := try_og_meta pg.metas "og:url"
  , start := startResolve (scriptScan pg.scripts).1 pg.timeEls
  , end_dt := (scriptScan pg.scripts).2
  , location := locScan pg.textNodes }

/-- Fixed configuration constants of the source (lines 15-20). -/
def PAGE_SLUG : String := "StreamwoodBiking"

/-- Base endpoint constant of line 16. -/
def BASE : String := "https://m.facebook.com/"

/-- Default time-zone identifier of line 20, attached to naive timestamps. -/
def DEFAULT_TZ : String := "America/Chicago"

/-- Calendar event entity built by build_ics for one record; optional
fields are set only when the record value is truthy. -/
structure IcsEvent where
  name : String
  begin_dt : Option DT
  end_dt : Option DT
  url : Option String
  description : Option String
  location : Option String
  uid : String
deriving DecidableEq, Repr

/-- Embedding of the per-record body of the build_ics loop (lines 111-133).
The external pytz zone is modelled by off, the offset in minutes the
configured DEFAULT_TZ zone assigns to a given wall-clock datetime; localize
attaches that offset without changing the wall-clock fields, and is applied
exactly when the timestamp carries no offset. now models int(time.time())
in the fallback uid. -/
def buildEvent (off : DT → Int) (now : Nat) (e : EventRecord) : IcsEvent :=
  { name := e.title
  , begin_dt :=
      match e.start with
      | none => none
      | some dt => some (if dt.tzoffset.isSome then dt else { dt with tzoffset := some (off dt) })
  , end_dt :=
      match e.end_dt with
      | none => none
      | some dt => some (if dt.tzoffset.isSome then dt else { dt with tzoffset := some (off dt) })
  , url := pyStr e.url
  , description := if e.description = "" then none else some e.description
  , location := pyStr e.location
  , uid := (pyStr e.url).getD (PAGE_SLUG ++ "-" ++ toString now) ++ "@streamwood-biking" }

/-- Embedding of build_ics (lines 108-133) up to serialization: the list of
event entities added to the calendar container, in record order. -/
def build_ics (off : DT → Int) (now : Nat) (events : List EventRecord) : List IcsEvent :=
  events.map (buildEvent off now)

/-- The call-site cap of line 182: a second stable-unique pass, then the
first 20 entries. -/
def cappedIds (ids : List String) : List String := (unique ids).take 20

/-- Per-identifier URL construction of line 200. urljoin against the base
endpoint, which ends in a slash, concatenates the relative path. -/
def eventPageUrl (eid : String) : String := BASE ++ "events/" ++ eid

/-- Embedding of the per-identifier record construction of the main loop
(lines 199-211): parse the event page, then assign the constructed page URL
when the parsed url is falsy (absent or empty). -/
def mainRecord (eid : String) (pg : Page) : EventRecord :=
  match pyStr (parse_event_page pg).url with
  | some _ => parse_event_page pg
  | none => { parse_event_page pg with url := some (eventPageUrl eid) }

/-- The start filter of line 216: keep records whose start is resolved (a
datetime value is always truthy). -/
def filterResults (rs : List EventRecord) : List EventRecord :=
  rs.filter (fun r => r.start.isSome)

/-- Reference formulation of stable first-occurrence deduplication: keep the
head and deduplicate the tail with all copies of the head removed. -/
def firstOccurrences : List String → List String
  | [] => []
  | x :: xs => x :: firstOccurrences (xs.filter (fun y => decide (y ≠ x)))
termination_by l => l.length
decreasing_by
  simp only [List.length_cons]
  exact Nat.lt_succ_of_le (xs.length_filter_le _)

/-- Concrete listing markup holding identifier-bearing links 111, 222, 111
in that order. -/
def listingSample : String :=
  "<a href=\"/events/111\">a</a> <a href=\"/events/222\">b</a> <a href=\"/events/111\">c</a>"

/-- Concrete naive datetime 2024-05-01 10:00:00. -/
def dt10 : DT := ⟨2024, 5, 1, 10, 0, 0, none⟩

/-- Concrete naive datetime 2024-05-01 12:00:00. -/
def dt12 : DT := ⟨2024, 5, 1, 12, 0, 0, none⟩

/-- Concrete naive datetime 2024-05-01 13:00:00. -/
def dt13 : DT := ⟨2024, 5, 1, 13, 0, 0, none⟩

/-- Concrete aware datetime 2024-05-01 12:00:00 at offset -05:00. -/
def dtAware : DT := ⟨2024, 5, 1, 12, 0, 0, some (-300)⟩

/-- Script text with ascending candidates 10:00 then 12:00. -/
def txtTwoAsc : String := "event start 2024-05-01T10:00:00 then 2024-05-01T12:00:00"

/-- Script text with candidates 12:00, then 10:00 (earlier than start),
then 13:00. -/
def txtDescAsc : String :=
  "event start 2024-05-01T12:00:00 a 2024-05-01T10:00:00 b 2024-05-01T13:00:00"

/-- Script text with candidates 12:00 then 10:00 only. -/
def txtTwoDesc : String := "event start 2024-05-01T12:00:00 a 2024-05-01T10:00:00"

/-- Concrete page whose single script carries two ascending candidates. -/
def pageC2 : Page := ⟨[], [txtTwoAsc], [], []⟩

/-- Concrete page whose single script carries candidates 12:00, 10:00,
13:00. -/
def pageC3 : Page := ⟨[], [txtDescAsc], [], []⟩

/-- Concrete page whose single script carries candidates 12:00, 10:00. -/
def pageC3b : Page := ⟨[], [txtTwoDesc], [], []⟩

/-- Concrete page whose single script carries two ascending candidates,
used to exercise the end-invariant. -/
def pageC4 : Page := ⟨[], [txtTwoAsc], [], []⟩

/-- Concrete page with no scripts and one time element whose non-empty
datetime attribute is unparsable while its visible text is parsable. -/
def pageC8 : Page := ⟨[], [], [⟨some "notadate", "2024-05-01T10:00:00"⟩], []⟩

/-- Twenty-five distinct identifier strings in a fixed order. -/
def ids25 : List String :=
  ["101", "102", "103", "104", "105", "106", "107", "108", "109", "110",
   "111", "112", "113", "114", "115", "116", "117", "118", "119", "120",
   "121", "122", "123", "124", "125"]

/-- Concrete zone-offset assignment: the constant CST offset of -360
minutes, one possible behaviour of the configured default zone. -/
def offC6 : DT → Int := fun _ => -360

/-- Concrete record with a naive start and an aware end. -/
def recC6 : EventRecord :=
  { title := "T", description := "", url := some "u",
    start := some dt10, end_dt := some dtAware, location := none }

/-- Concrete record with every field populated except start. -/
def recNoStart : EventRecord :=
  { title := "X", description := "d", url := some "u",
    start := none, end_dt := some dt12, location := some "L" }

/-! Properties of the stable-unique filter. -/

theorem uniqueGo_cons_mem {x : String} {seen : List String} (h : x ∈ seen) (xs : List String) :
    uniqueGo seen (x :: xs) = uniqueGo seen xs := by
  simp [uniqueGo, h]

theorem uniqueGo_cons_not_mem {x : String} {seen : List String} (h : x ∉ seen) (xs : List String) :
    uniqueGo seen (x :: xs) = x :: uniqueGo (x :: seen) xs := by
  simp [uniqueGo, h]

theorem uniqueGo_sublist (l : List String) : ∀ seen, (uniqueGo seen l).Sublist l := by
  induction l with
  | nil => intro seen; simp [uniqueGo]
  | cons x xs ih =>
    intro seen
    by_cases hx : x ∈ seen
    · rw [uniqueGo_cons_mem hx]
      exact (ih seen).cons x
    · rw [uniqueGo_cons_not_mem hx]
      exact (ih (x :: seen)).cons₂ x

theorem uniqueGo_mem (l : List String) : ∀ seen x, x ∈ uniqueGo seen l ↔ (x ∈ l ∧ x ∉ seen) := by
  induction l with
  | nil => intro seen x; simp [uniqueGo]
  | cons a as ih =>
    intro seen x
    by_cases ha : a ∈ seen
    · rw [uniqueGo_cons_mem ha, ih]
      simp only [List.mem_cons]
      constructor
      · rintro ⟨hm, hn⟩
        exact ⟨Or.inr hm, hn⟩
      · rintro ⟨hor, hn⟩
        rcases hor with rfl | hm
        · exact absurd ha hn
        · exact ⟨hm, hn⟩
    · rw [uniqueGo_cons_not_mem ha]
      simp only [List.mem_cons, ih, List.mem_cons]
      constructor
      · rintro (rfl | ⟨hm, hn⟩)
        · exact ⟨Or.inl rfl, ha⟩
        · exact ⟨Or.inr hm, fun hs => hn (Or.inr hs)⟩
      · rintro ⟨rfl | hm, hn⟩
        · exact Or.inl rfl
        · by_cases hxa : x = a
          · exact Or.inl hxa
          · exact Or.inr ⟨hm, fun hs => hs.elim hxa hn⟩

theorem uniqueGo_nodup (l : List String) : ∀ seen, (uniqueGo seen l).Nodup := by
  induction l with
  | nil => intro seen; simp [uniqueGo]
  | cons a as ih =>
    intro seen
    by_cases ha : a ∈ seen
    · rw [uniqueGo_cons_mem ha]; exact ih seen
    · rw [uniqueGo_cons_not_mem ha]
      refine List.nodup_cons.mpr ⟨?_, ih _⟩
      rw [uniqueGo_mem]
      rintro ⟨-, hn⟩
      exact hn (List.mem_cons_self a seen)

theorem uniqueGo_congr (l : List String) :
    ∀ s1 s2, (∀ z, z ∈ s1 ↔ z ∈ s2) → uniqueGo s1 l = uniqueGo s2 l := by
  induction l with
  | nil => intro s1 s2 _; rfl
  | cons a as ih =>
    intro s1 s2 h
    by_cases ha : a ∈ s1
    · rw [uniqueGo_cons_mem ha, uniqueGo_cons_mem ((h a).mp ha)]
      exact ih s1 s2 h
    · have ha2 : a ∉ s2 := fun hx => ha ((h a).mpr hx)
      rw [uniqueGo_cons_not_mem ha, uniqueGo_cons_not_mem ha2]
      congr 1
      refine ih (a :: s1) (a :: s2) ?_
      intro z
      simp only [List.mem_cons, h z]

theorem uniqueGo_filter (l : List String) :
    ∀ seen s, uniqueGo (s :: seen) l = uniqueGo seen (l.filter (fun y => decide (y ≠ s))) := by
  induction l with
  | nil => intro seen s; rfl
  | cons a as ih =>
    intro seen s
    by_cases has : a = s
    · subst has
      rw [uniqueGo_cons_mem (List.mem_cons_self a seen)]
      have hf : (a :: as).filter (fun y => decide (y ≠ a)) = as.filter (fun y => decide (y ≠ a)) := by
        simp [List.filter]
      rw [hf, ih]
    · have hfa : (a :: as).filter (fun y => decide (y ≠ s)) = a :: as.filter (fun y => decide (y ≠ s)) := by
        simp [List.filter, has]
      by_cases hseen : a ∈ seen
      · rw [uniqueGo_cons_mem (List.mem_cons_of_mem s hseen), hfa,
          uniqueGo_cons_mem hseen, ih]
      · have hnot : a ∉ s :: seen := by
          simp only [List.mem_cons]
          rintro (rfl | hs)
          · exact has rfl
          · exact hseen hs
        rw [uniqueGo_cons_not_mem hnot, hfa, uniqueGo_cons_not_mem hseen]
        congr 1
        have hsw : uniqueGo (a :: s :: seen) as = uniqueGo (s :: a :: seen) as := by
          refine uniqueGo_congr as _ _ ?_
          intro z
          simp only [List.mem_cons]
          tauto
        rw [hsw, ih (a :: seen) s]

theorem uniqueGo_eq_self (l : List String) :
    ∀ seen, l.Nodup → (∀ x, x ∈ l → x ∉ seen) → uniqueGo seen l = l := by
  induction l with
  | nil => intro seen _ _; rfl
  | cons a as ih =>
    intro seen hnd hdis
    have ha : a ∉ seen := hdis a (List.mem_cons_self a as)
    rw [uniqueGo_cons_not_mem ha]
    congr 1
    refine ih (a :: seen) (List.nodup_cons.mp hnd).2 ?_
    intro x hx
    simp only [List.mem_cons]
    rintro (rfl | hs)
    · exact (List.nodup_cons.mp hnd).1 hx
    · exact hdis x (List.mem_cons_of_mem a hx) hs

theorem unique_nodup (l : List String) : (unique l).Nodup := uniqueGo_nodup l []

theorem unique_sublist (l : List String) : (unique l).Sublist l := uniqueGo_sublist l []

theorem unique_mem (l : List String) (x : String) : x ∈ unique l ↔ x ∈ l := by
  rw [unique, uniqueGo_mem]
  simp

theorem unique_of_nodup {l : List String} (h : l.Nodup) : unique l = l :=
  uniqueGo_eq_self l [] h (fun x _ hx => (List.not_mem_nil x) hx)

theorem unique_eq_firstOccurrences : ∀ l : List String, unique l = firstOccurrences l
  | [] => by rw [firstOccurrences]; rfl
  | x :: xs => by
    rw [firstOccurrences]
    have h1 : unique (x :: xs) = x :: unique (xs.filter (fun y => decide (y ≠ x))) := by
      rw [show unique (x :: xs) = uniqueGo [] (x :: xs) from rfl,
        uniqueGo_cons_not_mem (List.not_mem_nil x), uniqueGo_filter]
      rfl
    rw [h1, unique_eq_firstOccurrences (xs.filter (fun y => decide (y ≠ x)))]
termination_by l => l.length
decreasing_by simp only [List.length_cons]; exact Nat.lt_succ_of_le (xs.length_filter_le _)

/-- C1: extract_event_ids returns the identifiers matched by the /events/
digit pattern in document order with duplicates removed keeping only the
first occurrence: it is the stable-unique filter over the raw match list,
which keeps exactly the first occurrences (the firstOccurrences
characterization; equivalently an order-preserving, duplicate-free sublist
of the matches with the same members); on markup carrying identifier links
111, 222, 111 in that order it yields [111, 222]. -/
theorem C1_extract_event_ids_dedup :
    (∀ html, extract_event_ids html = unique (rawEventIds html))
    ∧ (∀ html, extract_event_ids html = firstOccurrences (rawEventIds html))
    ∧ (∀ html, (extract_event_ids html).Sublist (rawEventIds html)
        ∧ (extract_event_ids html).Nodup
        ∧ ∀ x, x ∈ extract_event_ids html ↔ x ∈ rawEventIds html)
    ∧ (rawEventIds listingSample = ["111", "222", "111"]
        ∧ extract_event_ids listingSample = ["111", "222"]) := by
  refine ⟨fun _ => rfl, fun html => unique_eq_firstOccurrences _,
    fun html => ⟨unique_sublist _, unique_nodup _, fun x => unique_mem _ x⟩,
    by decide, by decide⟩

/-- C7: on a duplicate-free identifier sequence the call-site cap keeps
exactly the first 20 entries in their original order, and when at least 20
identifiers are present the capped working set has exactly 20 entries. -/
theorem C7_capped_first_twenty (ids : List String) (h : ids.Nodup) :
    cappedIds ids = ids.take 20 ∧ (20 ≤ ids.length → (cappedIds ids).length = 20) := by
  have he : cappedIds ids = ids.take 20 := by
    rw [cappedIds, unique_of_nodup h]
  refine ⟨he, fun hlen => ?_⟩
  rw [he, List.length_take]
  omega

/-- C7 witness: 25 concrete distinct identifiers yield exactly the first 20
in the same order. -/
theorem C7_capped_first_twenty_witness :
    ids25.Nodup ∧
      (cappedIds ids25 = ids25.take 20 ∧ (20 ≤ ids25.length → (cappedIds ids25).length = 20)) :=
  ⟨by decide, C7_capped_first_twenty ids25 (by decide)⟩

/-- C10: the stable-unique filter is idempotent on extractor output:
applying unique to extract_event_ids is the identity, for every markup. -/
theorem C10_unique_idempotent_on_extract :
    ∀ html, unique (extract_event_ids html) = extract_event_ids html :=
  fun _ => unique_of_nodup (unique_nodup _)

/-! Properties of the embedded-script timestamp scan. -/

theorem scanCandidate_first (e : Option DT) (iso : String) (T : DT)
    (h : dp_parse iso = some T) : scanCandidate (none, e) iso = (some T, e) := by
  simp [scanCandidate, h]

theorem scanCandidate_accept (s T : DT) (iso : String)
    (h : dp_parse iso = some T) (hge : dtGE T s = some true) :
    scanCandidate (some s, none) iso = (some s, some T) := by
  simp [scanCandidate, h, hge]

theorem scanCandidate_reject (s T : DT) (iso : String)
    (h : dp_parse iso = some T) (hge : dtGE T s ≠ some true) :
    scanCandidate (some s, none) iso = (some s, none) := by
  simp [scanCandidate, h, hge]

theorem scriptScan_single (txt : String) (htok : scriptHasTokens txt = true) :
    scriptScan [txt] = (isoMatches txt).foldl scanCandidate (none, none) := by
  simp [scriptScan, scanScript, htok]

/-- C2: a qualifying script text whose ISO candidates are exactly T1 then
T2, both parsing, with T2 >= T1, resolves start = T1 and end = T2 when the
page is parsed. -/
theorem C2_two_ascending_timestamps
    (metas : List MetaTag) (els : List TimeEl) (nodes : List TextNode)
    (txt t1 t2 : String) (T1 T2 : DT)
    (hm : isoMatches txt = [t1, t2])
    (h1 : dp_parse t1 = some T1) (h2 : dp_parse t2 = some T2)
    (hge : dtGE T2 T1 = some true)
    (htok : scriptHasTokens txt = true) :
    (parse_event_page ⟨metas, [txt], els, nodes⟩).start = some T1 ∧
      (parse_event_page ⟨metas, [txt], els, nodes⟩).end_dt = some T2 := by
  have hscan : scriptScan [txt] = (some T1, some T2) := by
    rw [scriptScan_single txt htok, hm]
    simp only [List.foldl]
    rw [scanCandidate_first none t1 T1 h1, scanCandidate_accept T1 T2 t2 h2 hge]
  constructor
  · simp [parse_event_page, startResolve, hscan]
  · simp [parse_event_page, hscan]

/-- C2 witness: a concrete page whose script holds 10:00 then 12:00
resolves start 10:00 and end 12:00. -/
theorem C2_two_ascending_timestamps_witness :
    (parse_event_page pageC2).start = some dt10 ∧
      (parse_event_page pageC2).end_dt = some dt12 :=
  C2_two_ascending_timestamps [] [] [] txtTwoAsc
    "2024-05-01T10:00:00" "2024-05-01T12:00:00" dt10 dt12
    (by decide) (by decide) (by decide) (by decide) (by decide)

/-- C3 counterexample: the claim that end remains unset even when a later
valid candidate T3 >= T1 appears is false: on a concrete page whose script
holds 12:00, then 10:00 (earlier than start), then 13:00, the parser sets
end to 13:00. -/
theorem C3_later_candidate_sets_end_counterexample :
    dtGE dt10 dt12 = some false ∧
      (parse_event_page pageC3).start = some dt12 ∧
      (parse_event_page pageC3).end_dt = some dt13 ∧
      (parse_event_page pageC3).end_dt ≠ none := by decide

/-- C3 amended: a parsed candidate T2 earlier than start is not accepted as
end, so with exactly candidates T1 then T2 < T1 end remains unset; but the
scan continues, and a later parsed candidate T3 >= T1 does become end. -/
theorem C3_earlier_candidate_rejected
    (metas : List MetaTag) (els : List TimeEl) (nodes : List TextNode)
    (txt t1 t2 : String) (T1 T2 : DT)
    (hm : isoMatches txt = [t1, t2])
    (h1 : dp_parse t1 = some T1) (h2 : dp_parse t2 = some T2)
    (hlt : dtGE T2 T1 = some false)
    (htok : scriptHasTokens txt = true) :
    ((parse_event_page ⟨metas, [txt], els, nodes⟩).start = some T1 ∧
      (parse_event_page ⟨metas, [txt], els, nodes⟩).end_dt = none) ∧
    (∀ txt3 t3 T3, isoMatches txt3 = [t1, t2, t3] → dp_parse t3 = some T3 →
      dtGE T3 T1 = some true → scriptHasTokens txt3 = true →
      (parse_event_page ⟨metas, [txt3], els, nodes⟩).end_dt = some T3) := by
  have hne : dtGE T2 T1 ≠ some true := by rw [hlt]; simp
  constructor
  · have hscan : scriptScan [txt] = (some T1, none) := by
      rw [scriptScan_single txt htok, hm]
      simp only [List.foldl]
      rw [scanCandidate_first none t1 T1 h1, scanCandidate_reject T1 T2 t2 h2 hne]
    constructor
    · simp [parse_event_page, startResolve, hscan]
    · simp [parse_event_page, hscan]
  · intro txt3 t3 T3 hm3 h3 hge3 htok3
    have hscan : scriptScan [txt3] = (some T1, some T3) := by
      rw [scriptScan_single txt3 htok3, hm3]
      simp only [List.foldl]
      rw [scanCandidate_first none t1 T1 h1, scanCandidate_reject T1 T2 t2 h2 hne,
        scanCandidate_accept T1 T3 t3 h3 hge3]
    simp [parse_event_page, hscan]

/-- C3 amended witness: concretely, 12:00 then 10:00 leaves end unset, and
12:00, 10:00, 13:00 sets end to 13:00. -/
theorem C3_earlier_candidate_rejected_witness :
    ((parse_event_page ⟨[], [txtTwoDesc], [], []⟩).start = some dt12 ∧
      (parse_event_page ⟨[], [txtTwoDesc], [], []⟩).end_dt = none) ∧
    (parse_event_page ⟨[], [txtDescAsc], [], []⟩).end_dt = some dt13 := by
  have h := C3_earlier_candidate_rejected [] [] [] txtTwoDesc
    "2024-05-01T12:00:00" "2024-05-01T10:00:00" dt12 dt10
    (by decide) (by decide) (by decide) (by decide) (by decide)
  exact ⟨h.1, h.2 txtDescAsc "2024-05-01T13:00:00" dt13
    (by decide) (by decide) (by decide) (by decide)⟩

/-- Invariant of the scan state: an unresolved start forces an unresolved
end, and a resolved end was accepted against the current resolved start. -/
def ScanInv (st : Option DT × Option DT) : Prop :=
  (st.1 = none → st.2 = none) ∧
    ∀ ed, st.2 = some ed → ∃ sd, st.1 = some sd ∧ dtGE ed sd = some true

theorem scanCandidate_inv (st : Option DT × Option DT) (iso : String)
    (h : ScanInv st) : ScanInv (scanCandidate st iso) := by
  unfold scanCandidate
  cases hp : dp_parse iso with
  | none => exact h
  | some dt =>
    obtain ⟨s, e⟩ := st
    cases s with
    | none =>
      have he : e = none := h.1 rfl
      subst he
      exact ⟨fun h1 => by simp at h1, fun ed hed => by simp at hed⟩
    | some sd =>
      cases e with
      | none =>
        by_cases hge : dtGE dt sd = some true
        · simp only [hge, if_true]
          refine ⟨fun h1 => by simp at h1, fun ed hed => ⟨sd, rfl, ?_⟩⟩
          have : dt = ed := by simpa using hed
          rw [← this]
          exact hge
        · simp only [hge, if_false]
          exact ⟨fun h1 => by simp at h1, fun ed hed => by simp at hed⟩
      | some ed0 => exact h

theorem foldl_scanCandidate_inv (l : List String) :
    ∀ st, ScanInv st → ScanInv (l.foldl scanCandidate st) := by
  induction l with
  | nil => intro st h; exact h
  | cons a as ih => intro st h; exact ih _ (scanCandidate_inv st a h)

theorem scanScript_inv (st : Option DT × Option DT) (txt : String)
    (h : ScanInv st) : ScanInv (scanScript st txt) := by
  unfold scanScript
  by_cases ht : scriptHasTokens txt
  · simp only [ht, if_true]
    exact foldl_scanCandidate_inv _ st h
  · simp only [ht, if_false]
    exact h

theorem scriptScan_inv (scripts : List String) : ScanInv (scriptScan scripts) := by
  rw [scriptScan]
  have h0 : ScanInv ((none, none) : Option DT × Option DT) :=
    ⟨fun _ => rfl, fun ed hed => by simp at hed⟩
  generalize hst : ((none, none) : Option DT × Option DT) = st at h0
  clear hst
  induction scripts generalizing st with
  | nil => exact h0
  | cons a as ih => exact ih _ (scanScript_inv st a h0)

/-- C4: every record produced by parse_event_page satisfies the data-model
invariant: a resolved end implies a resolved start with end >= start. -/
theorem C4_end_invariant (pg : Page) (ed : DT)
    (h : (parse_event_page pg).end_dt = some ed) :
    ∃ sd, (parse_event_page pg).start = some sd ∧ dtGE ed sd = some true := by
  have hinv := scriptScan_inv pg.scripts
  have h2 : (scriptScan pg.scripts).2 = some ed := by
    simpa [parse_event_page] using h
  obtain ⟨sd, hs, hge⟩ := hinv.2 ed h2
  refine ⟨sd, ?_, hge⟩
  simp [parse_event_page, startResolve, hs]

/-- C4 witness: a concrete page with both timestamps resolved satisfies the
invariant. -/
theorem C4_end_invariant_witness :
    (parse_event_page pageC4).end_dt = some dt12 ∧
      ∃ sd, (parse_event_page pageC4).start = some sd ∧ dtGE dt12 sd = some true :=
  ⟨by decide, C4_end_invariant pageC4 dt12 (by decide)⟩

/-- C5: the final-output filter excludes every record whose start is
unresolved, whatever its other fields hold, and retains records with a
resolved start in their original order (the retained list is an
order-preserving sublist whose members are exactly the input records with
a resolved start). -/
theorem C5_filter_unresolved_start (rs : List EventRecord) :
    (filterResults rs).Sublist rs ∧
      (∀ r, r ∈ filterResults rs ↔ r ∈ rs ∧ r.start.isSome = true) ∧
      (∀ r, r ∈ rs → r.start = none → r ∉ filterResults rs) := by
  refine ⟨List.filter_sublist rs, fun r => ?_, fun r _ hn hmem => ?_⟩
  · simp [filterResults, List.mem_filter]
  · rw [filterResults, List.mem_filter] at hmem
    rw [hn] at hmem
    simp at hmem

/-- C5 witness: a concrete record with every field but start populated is
excluded, while a record with start resolved is retained. -/
theorem C5_filter_unresolved_start_witness :
    (filterResults [recNoStart, recC6]).Sublist [recNoStart, recC6] ∧
      recNoStart ∉ filterResults [recNoStart, recC6] ∧
      recC6 ∈ filterResults [recNoStart, recC6] := by
  have h := C5_filter_unresolved_start [recNoStart, recC6]
  exact ⟨h.1, h.2.2 recNoStart (by simp) (by decide),
    (h.2.1 recC6).mpr ⟨by simp, by decide⟩⟩

/-- C6: for a retained record, a start or end without a zone offset gets
the offset of the configured default zone attached with every wall-clock field
unchanged, while a timestamp already carrying an offset is passed through
unmodified. -/
theorem C6_zone_localization (off : DT → Int) (now : Nat) (e : EventRecord) :
    (∀ dt, e.start = some dt → dt.tzoffset = none →
      ∃ b, (buildEvent off now e).begin_dt = some b ∧
        b.tzoffset = some (off dt) ∧ b.year = dt.year ∧ b.month = dt.month ∧
        b.day = dt.day ∧ b.hour = dt.hour ∧ b.minute = dt.minute ∧ b.second = dt.second) ∧
    (∀ dt, e.start = some dt → dt.tzoffset ≠ none →
      (buildEvent off now e).begin_dt = some dt) ∧
    (∀ dt, e.end_dt = some dt → dt.tzoffset = none →
      ∃ b, (buildEvent off now e).end_dt = some b ∧
        b.tzoffset = some (off dt) ∧ b.year = dt.year ∧ b.month = dt.month ∧
        b.day = dt.day ∧ b.hour = dt.hour ∧ b.minute = dt.minute ∧ b.second = dt.second) ∧
    (∀ dt, e.end_dt = some dt → dt.tzoffset ≠ none →
      (buildEvent off now e).end_dt = some dt) := by
  refine ⟨fun dt hs hn => ?_, fun dt hs hn => ?_, fun dt hs hn => ?_, fun dt hs hn => ?_⟩
  · refine ⟨{ dt with tzoffset := some (off dt) }, ?_, rfl, rfl, rfl, rfl, rfl, rfl, rfl⟩
    simp [buildEvent, hs, hn]
  · have hsome : dt.tzoffset.isSome = true := Option.isSome_iff_ne_none.mpr hn
    simp [buildEvent, hs, hsome]
  · refine ⟨{ dt with tzoffset := some (off dt) }, ?_, rfl, rfl, rfl, rfl, rfl, rfl, rfl⟩
    simp [buildEvent, hs, hn]
  · have hsome : dt.tzoffset.isSome = true := Option.isSome_iff_ne_none.mpr hn
    simp [buildEvent, hs, hsome]

/-- C6 witness: on a concrete record a naive start receives the concrete
zone offset with unchanged wall-clock fields, and an aware end is passed
through unchanged. -/
theorem C6_zone_localization_witness :
    (∃ b, (buildEvent offC6 0 recC6).begin_dt = some b ∧
      b.tzoffset = some (offC6 dt10) ∧ b.year = dt10.year ∧ b.month = dt10.month ∧
      b.day = dt10.day ∧ b.hour = dt10.hour ∧ b.minute = dt10.minute ∧
      b.second = dt10.second) ∧
    (buildEvent offC6 0 recC6).end_dt = some dtAware := by
  have h := C6_zone_localization offC6 0 recC6
  exact ⟨h.1 dt10 rfl rfl, h.2.2.2 dtAware rfl (by decide)⟩

/-- C8 counterexample: the claim that an element whose datetime attribute
fails to parse but whose visible text parses yields start from the text is
false on the code: the fallback chooses the string to parse (non-empty
attribute, else text) before parsing, so an unparsable non-empty attribute
skips the whole element; on the concrete page start stays unresolved even
though the text of the element parses. -/
theorem C8_attr_text_counterexample :
    dp_parse_fuzzy "notadate" = none ∧
      dp_parse_fuzzy "2024-05-01T10:00:00" = some dt10 ∧
      (parse_event_page pageC8).start = none := by decide

/-- C8 amended: when the script scan leaves start unresolved, the parser
takes start from the DOM time-element fallback, which parses per element
the non-empty datetime attribute when present and otherwise the visible
text, accepts the first element whose chosen string parses and stops; an
element whose non-empty datetime attribute fails to parse is skipped
entirely (its text is not tried), while an element with an absent or empty
datetime attribute yields start from its parsed text. -/
theorem C8_time_fallback (pg : Page) (e0 : Option DT)
    (hscan : scriptScan pg.scripts = (none, e0)) :
    (parse_event_page pg).start = timeFallback pg.timeEls ∧
    (∀ a t rest, a ≠ "" → dp_parse_fuzzy a = none →
      timeFallback (⟨some a, t⟩ :: rest) = timeFallback rest) ∧
    (∀ t rest T, dp_parse_fuzzy t = some T →
      timeFallback (⟨none, t⟩ :: rest) = some T) ∧
    (∀ t rest T, dp_parse_fuzzy t = some T →
      timeFallback (⟨some "", t⟩ :: rest) = some T) := by
  refine ⟨?_, fun a t rest ha hp => ?_, fun t rest T hp => ?_, fun t rest T hp => ?_⟩
  · simp [parse_event_page, startResolve, hscan]
  · simp [timeFallback, timeElArg, ha, hp]
  · simp [timeFallback, timeElArg, hp]
  · simp [timeFallback, timeElArg, hp]

/-- C8 amended witness: concretely, the unparsable-attribute element is
skipped and an attribute-free element yields start from its text. -/
theorem C8_time_fallback_witness :
    (parse_event_page pageC8).start = timeFallback pageC8.timeEls ∧
      timeFallback [⟨some "notadate", "2024-05-01T10:00:00"⟩] = timeFallback [] ∧
      timeFallback [⟨none, "2024-05-01T10:00:00"⟩] = some dt10 := by
  have h := C8_time_fallback pageC8 none (by decide)
  exact ⟨h.1, h.2.1 "notadate" "2024-05-01T10:00:00" [] (by decide) (by decide),
    h.2.2.1 "2024-05-01T10:00:00" [] dt10 (by decide)⟩

/-! Properties of the main-loop record construction. -/

theorem pyStr_eq_some {o : Option String} {u : String} (h : pyStr o = some u) :
    o = some u ∧ u ≠ "" := by
  cases o with
  | none => simp [pyStr] at h
  | some s =>
    by_cases hs : s = ""
    · simp [pyStr, hs] at h
    · simp only [pyStr, if_neg hs, Option.some.injEq] at h
      subst h
      exact ⟨rfl, hs⟩

theorem eventPageUrl_ne_empty (eid : String) : eventPageUrl eid ≠ "" := by
  intro h
  have hlen := congrArg String.length h
  rw [eventPageUrl, String.length_append, String.length_append] at hlen
  have hb : BASE.length = 23 := rfl
  have he : ("events/" : String).length = 7 := rfl
  have h0 : ("" : String).length = 0 := rfl
  rw [hb, he, h0] at hlen
  omega

/-- C9: every record the main loop appends carries a truthy url (the parsed
one, or the constructed per-identifier page URL), so the calendar event
built from it always gets the URL-based unique identifier and the
time-based fallback uid branch is never taken. -/
theorem C9_pipeline_records_url_uid (eid : String) (pg : Page) (off : DT → Int) (now : Nat) :
    ∃ u, (mainRecord eid pg).url = some u ∧ u ≠ "" ∧
      (buildEvent off now (mainRecord eid pg)).uid = u ++ "@streamwood-biking" := by
  cases hu : pyStr (parse_event_page pg).url with
  | some u =>
    obtain ⟨hurl, hne⟩ := pyStr_eq_some hu
    have hrec : mainRecord eid pg = parse_event_page pg := by
      simp [mainRecord, hu]
    refine ⟨u, by rw [hrec, hurl], hne, ?_⟩
    rw [hrec]
    simp [buildEvent, hu]
  | none =>
    have hrec : mainRecord eid pg =
        { parse_event_page pg with url := some (eventPageUrl eid) } := by
      simp [mainRecord, hu]
    have hne := eventPageUrl_ne_empty eid
    refine ⟨eventPageUrl eid, by rw [hrec], hne, ?_⟩
    rw [hrec]
    simp [buildEvent, pyStr, hne]

end BuildCalendar
